import Mathlib

/-!
Verification of the magnetic_simulator physics core.

Shallow embedding of the JavaScript source (Physics.js, Magnet.js, the
IronParticle class and the MagneticSimulationApp orchestration) over the
real numbers.  Vector mutation in the source is rendered as explicit
state passing; the per-frame loops (backward removal loops, the O(n^2)
pair loop) are rendered as structurally recursive functions over lists.
Rendering-only state (meshes, colors, hover flags, emissive intensity)
is omitted: it is never read by the physics code paths modelled here.
-/

noncomputable section

/-- 3D vector: the subset of THREE.Vector3 the core uses. -/
@[ext]
structure Vec3 where
  x : ℝ
  y : ℝ
  z : ℝ

namespace Vec3

/-- new THREE.Vector3(0, 0, 0). -/
def zero : Vec3 := ⟨0, 0, 0⟩

/-- Vector3.add (componentwise). -/
def add (a b : Vec3) : Vec3 := ⟨a.x + b.x, a.y + b.y, a.z + b.z⟩

/-- Vector3.subVectors / sub (componentwise). -/
def sub (a b : Vec3) : Vec3 := ⟨a.x - b.x, a.y - b.y, a.z - b.z⟩

/-- Vector3.multiplyScalar. -/
def smul (a : Vec3) (c : ℝ) : Vec3 := ⟨a.x * c, a.y * c, a.z * c⟩

/-- Vector3.divideScalar. -/
def divScalar (a : Vec3) (c : ℝ) : Vec3 := ⟨a.x / c, a.y / c, a.z / c⟩

/-- Vector3.dot. -/
def dot (a b : Vec3) : ℝ := a.x * b.x + a.y * b.y + a.z * b.z

/-- Vector3.lengthSq. -/
def lengthSq (a : Vec3) : ℝ := a.x ^ 2 + a.y ^ 2 + a.z ^ 2

/-- Vector3.length. -/
def length (a : Vec3) : ℝ := Real.sqrt a.lengthSq

/-- Vector3.normalize: divide by the length. -/
def normalize (a : Vec3) : Vec3 := a.divScalar a.length

end Vec3

namespace Utils

/-- Utils.distance: Euclidean distance between two vectors. -/
def distance (v1 v2 : Vec3) : ℝ :=
  Real.sqrt ((v2.x - v1.x) ^ 2 + (v2.y - v1.y) ^ 2 + (v2.z - v1.z) ^ 2)

/-- Utils.clamp: Math.min(Math.max(value, lo), hi). -/
def clamp (value lo hi : ℝ) : ℝ := min (max value lo) hi

end Utils

/-- Physics state of an IronParticle.  The fields are exactly the ones the
simulation code reads or writes on the physics path; maxAge is Infinity in
the source unless configured, modelled by an Option (none = Infinity). -/
@[ext]
structure Particle where
  position : Vec3
  velocity : Vec3
  mass : ℝ
  radius : ℝ
  age : ℝ
  maxAge : Option ℝ
  isDead : Bool

/-- Physics-relevant state of a Magnet: position, type string, strength.
The source stores the type as a plain string ('bar', 'ring', 'horseshoe'). -/
@[ext]
structure Magnet where
  position : Vec3
  type : String
  strength : ℝ

namespace Physics

/-- this.GRAVITY. -/
def GRAVITY : ℝ := -9.81

/-- this.DAMPING. -/
def DAMPING : ℝ := 0.98

/-- this.AIR_RESISTANCE. -/
def AIR_RESISTANCE : ℝ := 0.99

/-- this.MAGNETIC_FORCE_SCALE. -/
def MAGNETIC_FORCE_SCALE : ℝ := 50

/-- this.MIN_FORCE. -/
def MIN_FORCE : ℝ := 0.001

/-- this.MAX_FORCE. -/
def MAX_FORCE : ℝ := 10

/-- this.maxVelocity. -/
def maxVelocity : ℝ := 20

/-- this.restitution. -/
def restitution : ℝ := 0.3

/-- Physics.calculateBarMagnetField: pole-biased multiplier
|cos(dot * pi)| + 0.3, where dot is the y component of the unit vector
from the magnet to the particle. -/
def calculateBarMagnetField (magnetPos particlePos : Vec3) : ℝ :=
  let magnetDirection : Vec3 := ⟨0, 1, 0⟩
  let toParticle := (particlePos.sub magnetPos).normalize
  let dotProduct := toParticle.dot magnetDirection
  |Real.cos (dotProduct * Real.pi)| + 0.3

/-- Physics.calculateRingMagnetField: toroidal multiplier
exp(-(radial - 1)^2 * 2) + 0.2. -/
def calculateRingMagnetField (magnetPos particlePos : Vec3) : ℝ :=
  let magnetAxis : Vec3 := ⟨0, 1, 0⟩
  let toParticle := particlePos.sub magnetPos
  let axisDistance := |toParticle.dot magnetAxis|
  let radialDistance := Real.sqrt (toParticle.lengthSq - axisDistance ^ 2)
  let ringEffect := Real.exp (-((radialDistance - 1) ^ 2) * 2)
  ringEffect + 0.2

/-- Physics.calculateMagneticForce.  Zero vector inside the 0.1 singularity
guard; otherwise inverse-square base magnitude, a shape multiplier for the
string types 'bar' and 'ring' (any other type, including 'horseshoe', gets
no multiplier), clamp of the magnitude to [MIN_FORCE, MAX_FORCE], direction
from the particle toward the magnet. -/
def calculateMagneticForce (sourcePos targetPos : Vec3) (magnetStrength : ℝ)
    (magnetType : String) : Vec3 :=
  let distance := Utils.distance sourcePos targetPos
  if distance < 0.1 then Vec3.zero
  else
    let base := magnetStrength * MAGNETIC_FORCE_SCALE / distance ^ 2
    let forceMagnitude :=
      if magnetType = "bar" then base * calculateBarMagnetField sourcePos targetPos
      else if magnetType = "ring" then base * calculateRingMagnetField sourcePos targetPos
      else base
    let direction := (sourcePos.sub targetPos).normalize
    direction.smul (Utils.clamp forceMagnitude MIN_FORCE MAX_FORCE)

/-- Physics.calculateGravity. -/
def calculateGravity (mass : ℝ) : Vec3 := ⟨0, GRAVITY * mass, 0⟩

/-- Physics.calculateAirResistance: quadratic drag -k * v * |v|. -/
def calculateAirResistance (velocity : Vec3) : Vec3 :=
  velocity.smul (-AIR_RESISTANCE * velocity.length)

/-- Physics.handleGroundCollision on the (position, velocity) pair:
clamp y to 0, reflect and damp a downward vertical velocity, apply
horizontal friction. -/
def handleGroundCollision (position velocity : Vec3) : Vec3 × Vec3 :=
  if position.y ≤ 0 then
    let vy := if velocity.y < 0 then -velocity.y * restitution else velocity.y
    (⟨position.x, 0, position.z⟩, ⟨velocity.x * 0.8, vy, velocity.z * 0.8⟩)
  else (position, velocity)

/-- Physics.updateParticle: gravity + magnet forces + air resistance,
acceleration, velocity update with the 20-magnitude clamp, position
update, ground collision, then the global damping factor. -/
def updateParticle (particle : Particle) (magnets : List Magnet)
    (deltaTime : ℝ) : Particle :=
  let totalForce :=
    ((magnets.foldl
        (fun acc m =>
          acc.add (calculateMagneticForce m.position particle.position m.strength m.type))
        (Vec3.zero.add (calculateGravity particle.mass))).add
      (calculateAirResistance particle.velocity))
  let acceleration := totalForce.divScalar particle.mass
  let v1 := particle.velocity.add (acceleration.smul deltaTime)
  let v2 := if v1.length > maxVelocity then v1.normalize.smul maxVelocity else v1
  let p1 := particle.position.add (v2.smul deltaTime)
  let pv := handleGroundCollision p1 v2
  { particle with position := pv.1, velocity := pv.2.smul DAMPING }

/-- Physics.handleParticleCollision: on overlap, symmetric positional
separation along the collision normal; if the pair is not already
separating, a restitution-free impulse exchange on the velocities. -/
def handleParticleCollision (particle1 particle2 : Particle) :
    Particle × Particle :=
  let distance := Utils.distance particle1.position particle2.position
  let minDistance := particle1.radius + particle2.radius
  if distance < minDistance ∧ distance > 0 then
    let collisionDirection := (particle2.position.sub particle1.position).normalize
    let overlap := minDistance - distance
    let separation := collisionDirection.smul (overlap * 0.5)
    let p1 := { particle1 with position := particle1.position.sub separation }
    let p2 := { particle2 with position := particle2.position.add separation }
    let relativeVelocity := particle1.velocity.sub particle2.velocity
    let velocityAlongNormal := relativeVelocity.dot collisionDirection
    if velocityAlongNormal > 0 then (p1, p2)
    else
      let impulse := 2 * velocityAlongNormal / (particle1.mass + particle2.mass)
      ({ p1 with velocity :=
            particle1.velocity.sub (collisionDirection.smul (impulse * particle2.mass)) },
       { p2 with velocity :=
            particle2.velocity.add (collisionDirection.smul (impulse * particle1.mass)) })
  else (particle1, particle2)

end Physics

namespace IronParticle

/-- The option bag of the IronParticle constructor: the fields the physics
path reads (radius, mass) with the source's defaults. -/
structure Options where
  radius : ℝ := 0.02
  mass : ℝ := 0.1

/-- The IronParticle constructor: stores position, zero velocity, the
option values for mass and radius as given (no validation), age 0,
maxAge = Infinity (none), not dead. -/
def new (position : Vec3) (opts : Options) : Particle :=
  { position := position, velocity := Vec3.zero, mass := opts.mass,
    radius := opts.radius, age := 0, maxAge := none, isDead := false }

/-- IronParticle.checkMagnetInteraction: track the closest magnet; inside
distance 0.5 the particle counts as attracted, and inside 0.1 its velocity
is multiplied by 0.1.  Only the velocity effect is physics-relevant. -/
def checkMagnetInteraction (p : Particle) (magnets : List Magnet) : Particle :=
  let closestDistance : Option ℝ :=
    magnets.foldl
      (fun acc m =>
        let d := Utils.distance p.position m.position
        match acc with
        | none => some d
        | some best => if d < best then some d else some best)
      none
  match closestDistance with
  | none => p
  | some d =>
      if d < 0.5 then
        if d < 0.1 then { p with velocity := p.velocity.smul 0.1 } else p
      else p

/-- IronParticle.checkGroundStick: a slow particle at ground level has its
velocity multiplied by 0.5. -/
def checkGroundStick (p : Particle) : Particle :=
  if p.position.y ≤ 0.01 ∧ p.velocity.length < 0.1 then
    { p with velocity := p.velocity.smul 0.5 }
  else p

/-- IronParticle.isOutOfBounds with the default boundary 15. -/
def isOutOfBounds (p : Particle) : Prop :=
  |p.position.x| > 15 ∨ |p.position.z| > 15 ∨
    p.position.y < -5 ∨ p.position.y > 15

instance (p : Particle) : Decidable (isOutOfBounds p) := by
  unfold isOutOfBounds; infer_instance

/-- IronParticle.update: early return when dead; age increase; kill when
age exceeds a finite maxAge (never fires for the constructor's Infinity);
otherwise Physics.updateParticle followed by the magnet-interaction and
ground-stick checks (mesh updates are rendering-only and omitted). -/
def update (p : Particle) (deltaTime : ℝ) (magnets : List Magnet) : Particle :=
  if p.isDead then p
  else
    let p1 := { p with age := p.age + deltaTime }
    let alive :=
      checkGroundStick
        (checkMagnetInteraction (Physics.updateParticle p1 magnets deltaTime) magnets)
    match p1.maxAge with
    | none => alive
    | some mA => if p1.age > mA then { p1 with isDead := true } else alive

end IronParticle

namespace MagneticSimulationApp

/-- this.maxParticles. -/
def maxParticles : Nat := 1000

/-- The app state the physics paths touch: the live particle array, the
magnet array and the reuse pool.  Magnets are externally mutated and
read-only within a step (Magnet.update only syncs rendering state). -/
structure AppState where
  particles : List Particle
  magnets : List Magnet
  particlePool : List Particle

/-- MagneticSimulationApp.removeParticle: bounds-checked removal from the
live array; the removed particle is pushed onto the pool when the pool
holds fewer than 50. -/
def removeParticle (st : AppState) (index : Nat) : AppState :=
  if h : index < st.particles.length then
    { st with
      particles := st.particles.eraseIdx index,
      particlePool :=
        if st.particlePool.length < 50 then
          st.particlePool ++ [st.particles.get ⟨index, h⟩]
        else st.particlePool }
  else st

/-- The linear scan of removeOldestParticle: starting from a current best
index and best age, advance through the rest of the array, moving the best
index only on a strictly larger age. -/
def oldestAux : List Particle → Nat → Nat → ℝ → Nat
  | [], _, best, _ => best
  | p :: rest, i, best, bestAge =>
      if bestAge < p.age then oldestAux rest (i + 1) i p.age
      else oldestAux rest (i + 1) best bestAge

/-- Index selected by removeOldestParticle's scan (0 on the empty list). -/
def oldestIndex : List Particle → Nat
  | [] => 0
  | p :: rest => oldestAux rest 1 0 p.age

/-- MagneticSimulationApp.removeOldestParticle. -/
def removeOldestParticle (st : AppState) : AppState :=
  if st.particles.isEmpty then st
  else removeParticle st (oldestIndex st.particles)

/-- MagneticSimulationApp.addParticle: evict the oldest particle when the
live count has reached maxParticles; then reuse the last pooled particle
(resetting position, velocity, isDead and age, keeping its mass and
radius) or construct a fresh one, and push it onto the live array. -/
def addParticle (st : AppState) (position : Vec3)
    (opts : IronParticle.Options) : AppState :=
  let st1 := if maxParticles ≤ st.particles.length then removeOldestParticle st else st
  match st1.particlePool.getLast? with
  | some p0 =>
      let particle :=
        { p0 with position := position, velocity := Vec3.zero,
                  isDead := false, age := 0 }
      { st1 with particlePool := st1.particlePool.dropLast,
                 particles := st1.particles ++ [particle] }
  | none =>
      { st1 with particles := st1.particles ++ [IronParticle.new position opts] }

/-- The backward loop of updateParticles: update the particle at each index
from high to low, removing it immediately when it left the world bounds. -/
def updateParticlesAux (dt : ℝ) : AppState → Nat → AppState
  | st, 0 => st
  | st, n + 1 =>
      if h : n < st.particles.length then
        let p := IronParticle.update (st.particles.get ⟨n, h⟩) dt st.magnets
        let st1 := { st with particles := st.particles.set n p }
        let st2 := if IronParticle.isOutOfBounds p then removeParticle st1 n else st1
        updateParticlesAux dt st2 n
      else updateParticlesAux dt st n

/-- MagneticSimulationApp.updateParticles. -/
def updateParticles (st : AppState) (dt : ℝ) : AppState :=
  updateParticlesAux dt st st.particles.length

/-- One pair visit of handleParticleCollisions: collide the particles at
indices i and j and write both back. -/
def applyPair (ps : List Particle) (i j : Nat) : List Particle :=
  if h : i < ps.length ∧ j < ps.length then
    let r := Physics.handleParticleCollision (ps.get ⟨i, h.1⟩) (ps.get ⟨j, h.2⟩)
    (ps.set i r.1).set j r.2
  else ps

/-- MagneticSimulationApp.handleParticleCollisions: every unordered pair
i < j in ascending order. -/
def handleParticleCollisions (ps : List Particle) : List Particle :=
  (List.range ps.length).foldl
    (fun acc i =>
      (List.range ps.length).foldl
        (fun acc2 j => if i < j then applyPair acc2 i j else acc2) acc)
    ps

/-- The backward loop of cleanupDeadParticles. -/
def cleanupAux : AppState → Nat → AppState
  | st, 0 => st
  | st, n + 1 =>
      if h : n < st.particles.length then
        let st1 :=
          if (st.particles.get ⟨n, h⟩).isDead then removeParticle st n else st
        cleanupAux st1 n
      else cleanupAux st n

/-- MagneticSimulationApp.update, one simulation step: magnet updates
(rendering-only, no physics state change), particle updates with
out-of-bounds culling, the pairwise collision pass gated on a live count
below 100, then dead-particle cleanup. -/
def update (st : AppState) (dt : ℝ) : AppState :=
  let st1 := updateParticles st dt
  let st2 :=
    if st1.particles.length < 100 then
      { st1 with particles := handleParticleCollisions st1.particles }
    else st1
  cleanupAux st2 st2.particles.length

end MagneticSimulationApp

namespace Magnet

/-- The option bag of the Magnet constructor restricted to the physics
field, with the source's default. -/
structure Options where
  strength : ℝ := 1.0

/-- The Magnet constructor: stores position, the type string as given and
the option strength as given (no validation and no clamping). -/
def new (position : Vec3) (type : String) (opts : Options) : Magnet :=
  { position := position, type := type, strength := opts.strength }

/-- Magnet.setStrength: clamps the new strength to [0.1, 2.0] (the rest of
the method only adjusts emissive rendering state). -/
def setStrength (m : Magnet) (strength : ℝ) : Magnet :=
  { m with strength := Utils.clamp strength 0.1 2.0 }

end Magnet

/-- Age of the particle stored at an index (0 past the end); used to state
the eviction policy of removeOldestParticle. -/
def ageAt (ps : List Particle) (i : Nat) : ℝ :=
  match ps[i]? with
  | some p => p.age
  | none => 0

/-- First particle of the ground-invariant counterexample: at rest slightly
above the ground, overlapping the second. -/
def cxA : Particle :=
  ⟨⟨0, 0.02, 0⟩, ⟨0, 0, 0⟩, 0.1, 0.02, 0, none, false⟩

/-- Second particle of the ground-invariant counterexample: at rest just
below the first, also above the ground. -/
def cxB : Particle :=
  ⟨⟨0, 0.01, 0⟩, ⟨0, 0, 0⟩, 0.1, 0.02, 0, none, false⟩

/-- App state of the ground-invariant counterexample: the two overlapping
particles, no magnets, empty pool. -/
def cxState : MagneticSimulationApp.AppState := ⟨[cxA, cxB], [], []⟩

/-- cxA after the collision pass separates the pair upward. -/
def cxA' : Particle :=
  ⟨⟨0, 0.035, 0⟩, ⟨0, 0, 0⟩, 0.1, 0.02, 0, none, false⟩

/-- cxB after the collision pass separates the pair downward, below the
ground plane. -/
def cxB' : Particle :=
  ⟨⟨0, -0.005, 0⟩, ⟨0, 0, 0⟩, 0.1, 0.02, 0, none, false⟩

/-- Unit-mass test particle at rest at (0, 1, 0), used by the witnesses. -/
def wUnit : Particle := ⟨⟨0, 1, 0⟩, ⟨0, 0, 0⟩, 1, 1, 0, none, false⟩

/-- Like wUnit but with a different radius and age, agreeing with wUnit on
position, velocity and mass. -/
def wUnit2 : Particle := ⟨⟨0, 1, 0⟩, ⟨0, 0, 0⟩, 1, 2, 5, none, false⟩

/-! ## General lemmas about the embedded operations -/

lemma Vec3.lengthSq_nonneg (a : Vec3) : 0 ≤ a.lengthSq := by
  unfold Vec3.lengthSq; positivity

lemma Vec3.length_nonneg (a : Vec3) : 0 ≤ a.length :=
  Real.sqrt_nonneg _

lemma Vec3.length_smul (a : Vec3) (c : ℝ) : (a.smul c).length = |c| * a.length := by
  unfold Vec3.length Vec3.lengthSq Vec3.smul
  rw [show (a.x * c) ^ 2 + (a.y * c) ^ 2 + (a.z * c) ^ 2
        = c ^ 2 * (a.x ^ 2 + a.y ^ 2 + a.z ^ 2) by ring,
    Real.sqrt_mul (sq_nonneg c), Real.sqrt_sq_eq_abs]

lemma Vec3.length_divScalar (a : Vec3) (c : ℝ) :
    (a.divScalar c).length = a.length / |c| := by
  unfold Vec3.length Vec3.lengthSq Vec3.divScalar
  rw [show (a.x / c) ^ 2 + (a.y / c) ^ 2 + (a.z / c) ^ 2
        = (a.x ^ 2 + a.y ^ 2 + a.z ^ 2) / c ^ 2 by ring,
    Real.sqrt_div (by positivity), Real.sqrt_sq_eq_abs]

lemma Vec3.length_normalize (a : Vec3) (h : a.length ≠ 0) :
    a.normalize.length = 1 := by
  unfold Vec3.normalize
  rw [Vec3.length_divScalar, abs_of_nonneg (Vec3.length_nonneg a),
    div_self h]

/-- The length of the difference vector is the Utils.distance of its ends. -/
lemma Vec3.length_sub_eq_distance (s t : Vec3) :
    (s.sub t).length = Utils.distance s t := by
  unfold Vec3.length Vec3.lengthSq Vec3.sub Utils.distance
  congr 1
  ring

lemma Utils.clamp_le (v lo hi : ℝ) (h : lo ≤ hi) :
    lo ≤ Utils.clamp v lo hi ∧ Utils.clamp v lo hi ≤ hi := by
  unfold Utils.clamp
  exact ⟨le_min (le_max_right v lo) h, min_le_right _ _⟩

lemma Utils.clamp_eq_self (v lo hi : ℝ) (h1 : lo ≤ v) (h2 : v ≤ hi) :
    Utils.clamp v lo hi = v := by
  unfold Utils.clamp
  rw [max_eq_left h1, min_eq_left h2]

/-- calculateMagneticForce outside the singularity guard, written with the
shape dispatch explicit. -/
lemma Physics.calculateMagneticForce_far (s t : Vec3) (strength : ℝ) (ty : String)
    (h : ¬ Utils.distance s t < 0.1) :
    Physics.calculateMagneticForce s t strength ty =
      (s.sub t).normalize.smul
        (Utils.clamp
          (if ty = "bar" then
            strength * 50 / Utils.distance s t ^ 2 * Physics.calculateBarMagnetField s t
          else if ty = "ring" then
            strength * 50 / Utils.distance s t ^ 2 * Physics.calculateRingMagnetField s t
          else strength * 50 / Utils.distance s t ^ 2)
          0.001 10) := by
  simp only [Physics.calculateMagneticForce, Physics.MAGNETIC_FORCE_SCALE,
    Physics.MIN_FORCE, Physics.MAX_FORCE]
  rw [if_neg h]

/-- Ground collision never increases the velocity magnitude. -/
lemma Physics.handleGroundCollision_velocity_le (pos v : Vec3) :
    (Physics.handleGroundCollision pos v).2.length ≤ v.length := by
  unfold Physics.handleGroundCollision Physics.restitution
  split_ifs with h hy
  · apply Real.sqrt_le_sqrt
    unfold Vec3.lengthSq
    simp only
    nlinarith [sq_nonneg v.x, sq_nonneg v.y, sq_nonneg v.z]
  · apply Real.sqrt_le_sqrt
    unfold Vec3.lengthSq
    simp only
    nlinarith [sq_nonneg v.x, sq_nonneg v.y, sq_nonneg v.z]
  · exact le_refl _

/-- Ground collision leaves the y coordinate non-negative. -/
lemma Physics.handleGroundCollision_y_nonneg (pos v : Vec3) :
    0 ≤ (Physics.handleGroundCollision pos v).1.y := by
  unfold Physics.handleGroundCollision
  by_cases h : pos.y ≤ 0
  · rw [if_pos h]
  · rw [if_neg h]
    exact le_of_lt (not_le.mp h)

/-- The velocity clamp of updateParticle caps the magnitude at 20. -/
lemma Physics.clampVelocity_le (v : Vec3) :
    (if v.length > Physics.maxVelocity then v.normalize.smul Physics.maxVelocity
     else v).length ≤ 20 := by
  have hmv : Physics.maxVelocity = 20 := by norm_num [Physics.maxVelocity]
  split_ifs with h
  · have hv : v.length ≠ 0 := by
      have h0 : (0 : ℝ) < Physics.maxVelocity := by rw [hmv]; norm_num
      exact ne_of_gt (lt_trans h0 h)
    rw [Vec3.length_smul, Vec3.length_normalize v hv, hmv]
    norm_num
  · rw [hmv] at h
    exact not_lt.mp h

/-- Ground response followed by the damping factor keeps a velocity that
was within the clamp within the clamp. -/
lemma Physics.groundDamp_le (pos v : Vec3) (h : v.length ≤ 20) :
    ((Physics.handleGroundCollision pos v).2.smul Physics.DAMPING).length ≤ 20 := by
  rw [Vec3.length_smul, show |Physics.DAMPING| = 0.98 by norm_num [Physics.DAMPING]]
  have h1 := Physics.handleGroundCollision_velocity_le pos v
  have h2 := Vec3.length_nonneg (Physics.handleGroundCollision pos v).2
  nlinarith

/-- Core velocity bound of updateParticle: the 20-magnitude clamp is applied
to the velocity, and the ground response and damping only shrink it. -/
lemma Physics.updateParticle_velocity_le (p : Particle) (M : List Magnet) (dt : ℝ) :
    (Physics.updateParticle p M dt).velocity.length ≤ 20 :=
  Physics.groundDamp_le _ _ (Physics.clampVelocity_le _)


/-- Evaluation helper: a square root equals a given non-negative value
whose square is the radicand. -/
lemma sqrt_eq_of_sq_eq (x y : ℝ) (h1 : y ^ 2 = x) (h2 : 0 ≤ y) :
    Real.sqrt x = y := by
  rw [← h1, Real.sqrt_sq h2]

/-! ## The claims -/

/-- C1 (amended part): after the per-particle integration phase
(Physics.updateParticle, which ends with ground-collision handling before
the damping factor), the particle's position.y is non-negative; the
full step does not preserve this, see the counterexample. -/
theorem c1_ground_after_integration (p : Particle) (M : List Magnet) (dt : ℝ) :
    0 ≤ (Physics.updateParticle p M dt).position.y :=
  Physics.handleGroundCollision_y_nonneg _ _

/-- C3: for any magnet type and strength, and any pair at distance at
least 0.1, the returned force magnitude lies in [0.001, 10]. -/
theorem c3_force_magnitude_in_bounds (s t : Vec3) (strength : ℝ) (ty : String)
    (h : 0.1 ≤ Utils.distance s t) :
    0.001 ≤ (Physics.calculateMagneticForce s t strength ty).length ∧
    (Physics.calculateMagneticForce s t strength ty).length ≤ 10 := by
  rw [Physics.calculateMagneticForce_far s t strength ty (not_lt.mpr h)]
  have hlen : (s.sub t).length = Utils.distance s t := Vec3.length_sub_eq_distance s t
  have hpos : (s.sub t).length ≠ 0 := by
    rw [hlen]; exact ne_of_gt (lt_of_lt_of_le (by norm_num) h)
  obtain ⟨hlo, hhi⟩ := Utils.clamp_le
    (if ty = "bar" then
      strength * 50 / Utils.distance s t ^ 2 * Physics.calculateBarMagnetField s t
    else if ty = "ring" then
      strength * 50 / Utils.distance s t ^ 2 * Physics.calculateRingMagnetField s t
    else strength * 50 / Utils.distance s t ^ 2)
    0.001 10 (by norm_num)
  rw [Vec3.length_smul, Vec3.length_normalize _ hpos, mul_one,
    abs_of_nonneg (le_trans (by norm_num) hlo)]
  exact ⟨hlo, hhi⟩

/-- C3 witness: magnet at the origin, particle at distance 1 on the z axis,
bar type, strength 1. -/
theorem c3_witness :
    0.1 ≤ Utils.distance ⟨0, 0, 0⟩ ⟨0, 0, 1⟩ ∧
    (0.001 ≤ (Physics.calculateMagneticForce ⟨0, 0, 0⟩ ⟨0, 0, 1⟩ 1 ("bar")).length ∧
     (Physics.calculateMagneticForce ⟨0, 0, 0⟩ ⟨0, 0, 1⟩ 1 ("bar")).length ≤ 10) := by
  have hd : Utils.distance (⟨0, 0, 0⟩ : Vec3) ⟨0, 0, 1⟩ = 1 := by
    unfold Utils.distance
    exact sqrt_eq_of_sq_eq _ _ (by norm_num) (by norm_num)
  have h : 0.1 ≤ Utils.distance (⟨0, 0, 0⟩ : Vec3) ⟨0, 0, 1⟩ := by
    rw [hd]; norm_num
  exact ⟨h, c3_force_magnitude_in_bounds ⟨0, 0, 0⟩ ⟨0, 0, 1⟩ 1 ("bar") h⟩

/-- C4: inside the 0.1 singularity guard the force is exactly the zero
vector, for every type and strength. -/
theorem c4_singularity_guard (s t : Vec3) (strength : ℝ) (ty : String)
    (h : Utils.distance s t < 0.1) :
    Physics.calculateMagneticForce s t strength ty = Vec3.zero := by
  simp only [Physics.calculateMagneticForce]
  rw [if_pos h]

/-- C4 witness: magnet and particle at the same point. -/
theorem c4_witness :
    Utils.distance ⟨0, 0, 0⟩ ⟨0, 0, 0⟩ < 0.1 ∧
    Physics.calculateMagneticForce ⟨0, 0, 0⟩ ⟨0, 0, 0⟩ 1 ("bar") = Vec3.zero := by
  have hd : Utils.distance (⟨0, 0, 0⟩ : Vec3) ⟨0, 0, 0⟩ = 0 := by
    unfold Utils.distance
    exact sqrt_eq_of_sq_eq _ _ (by norm_num) (by norm_num)
  have h : Utils.distance (⟨0, 0, 0⟩ : Vec3) ⟨0, 0, 0⟩ < 0.1 := by
    rw [hd]; norm_num
  exact ⟨h, c4_singularity_guard ⟨0, 0, 0⟩ ⟨0, 0, 0⟩ 1 ("bar") h⟩

/-- C8 (amended part): setStrength clamps every input into [0.1, 2.0].
The constructor does not clamp, see the counterexample. -/
theorem c8_setStrength_clamped (m : Magnet) (s : ℝ) :
    0.1 ≤ (m.setStrength s).strength ∧ (m.setStrength s).strength ≤ 2.0 := by
  simp only [Magnet.setStrength]
  exact Utils.clamp_le s 0.1 2.0 (by norm_num)

/-- C8 counterexample: constructing a magnet with option strength 5 stores
strength 5, outside [0.1, 2.0] - the constructor applies no clamp. -/
theorem c8_counterexample :
    ¬ (0.1 ≤ (Magnet.new Vec3.zero ("bar") { strength := 5 }).strength ∧
       (Magnet.new Vec3.zero ("bar") { strength := 5 }).strength ≤ 2.0) := by
  simp only [Magnet.new]
  norm_num

/-- C7 (amended): the constructors perform no validation; a particle built
with negative mass and radius and a magnet built with a malformed type
string are accepted with the given values stored as-is. -/
theorem c7_constructors_accept_invalid (pos : Vec3) (popts : IronParticle.Options)
    (ty : String) (mopts : Magnet.Options) :
    (IronParticle.new pos popts).mass = popts.mass ∧
    (IronParticle.new pos popts).radius = popts.radius ∧
    (Magnet.new pos ty mopts).type = ty ∧
    (Magnet.new pos ty mopts).strength = mopts.strength := by
  simp [IronParticle.new, Magnet.new]

/-- C7 counterexample: an invalid configuration does not fail fast - the
negative mass and radius and the malformed type are stored unchanged. -/
theorem c7_counterexample :
    (IronParticle.new Vec3.zero { radius := -1, mass := -1 }).mass = -1 ∧
    (IronParticle.new Vec3.zero { radius := -1, mass := -1 }).radius = -1 ∧
    (Magnet.new Vec3.zero ("wavyMagnet") { strength := 1 }).type = "wavyMagnet" := by
  simp [IronParticle.new, Magnet.new]

/-- C9: updateParticle reads only the particle's position, velocity and
mass (plus the magnet set and dt); two particles agreeing on those three
fields produce identical output position and velocity. -/
theorem c9_updateParticle_deterministic (p q : Particle) (M : List Magnet) (dt : ℝ)
    (hpos : p.position = q.position) (hvel : p.velocity = q.velocity)
    (hmass : p.mass = q.mass) :
    (Physics.updateParticle p M dt).position = (Physics.updateParticle q M dt).position ∧
    (Physics.updateParticle p M dt).velocity = (Physics.updateParticle q M dt).velocity := by
  constructor <;> simp only [Physics.updateParticle, hpos, hvel, hmass]

/-- C9 witness: two particles equal in position, velocity and mass but
differing in radius get identical outputs. -/
theorem c9_witness :
    wUnit.position = wUnit2.position ∧
    (Physics.updateParticle wUnit [] 0).position =
      (Physics.updateParticle wUnit2 [] 0).position :=
  ⟨rfl, (c9_updateParticle_deterministic wUnit wUnit2 [] 0 rfl rfl rfl).1⟩

/-- C10: handleParticleCollision conserves mass-weighted velocity sum in
every branch (no contact, overlap with separating velocities, impulse
exchange). -/
theorem c10_momentum_conserved (p1 p2 : Particle)
    (h1 : 0 < p1.mass) (h2 : 0 < p2.mass) :
    (((Physics.handleParticleCollision p1 p2).1.velocity.smul
        (Physics.handleParticleCollision p1 p2).1.mass).add
      ((Physics.handleParticleCollision p1 p2).2.velocity.smul
        (Physics.handleParticleCollision p1 p2).2.mass)) =
    (p1.velocity.smul p1.mass).add (p2.velocity.smul p2.mass) := by
  simp only [Physics.handleParticleCollision]
  split_ifs with hc hv
  · rfl
  · apply Vec3.ext <;>
      simp only [Vec3.add, Vec3.smul, Vec3.sub, Vec3.dot] <;> ring
  · rfl

/-- C10 witness: two resting particles of mass 1 at the same point (the
zero-distance branch). -/
theorem c10_witness :
    0 < wUnit.mass ∧
    (((Physics.handleParticleCollision wUnit wUnit).1.velocity.smul
        (Physics.handleParticleCollision wUnit wUnit).1.mass).add
      ((Physics.handleParticleCollision wUnit wUnit).2.velocity.smul
        (Physics.handleParticleCollision wUnit wUnit).2.mass)) =
    (wUnit.velocity.smul wUnit.mass).add (wUnit.velocity.smul wUnit.mass) :=
  ⟨by norm_num [wUnit],
    c10_momentum_conserved wUnit wUnit (by norm_num [wUnit]) (by norm_num [wUnit])⟩

/-- C6: one updateParticle call leaves the velocity magnitude at most 20,
and hence so does every positive number of repeated calls. -/
theorem c6_velocity_clamped (p : Particle) (M : List Magnet) (dt : ℝ)
    (h : 0 < p.mass) :
    (Physics.updateParticle p M dt).velocity.length ≤ 20 ∧
    ∀ n : ℕ, 1 ≤ n →
      (((fun q => Physics.updateParticle q M dt)^[n]) p).velocity.length ≤ 20 := by
  refine ⟨Physics.updateParticle_velocity_le p M dt, ?_⟩
  intro n hn
  obtain ⟨m, rfl⟩ : ∃ m, n = m + 1 := ⟨n - 1, by omega⟩
  rw [Function.iterate_succ_apply']
  exact Physics.updateParticle_velocity_le _ M dt

/-- C6 witness: a unit-mass particle at rest, no magnets, dt = 0. -/
theorem c6_witness :
    0 < wUnit.mass ∧
    (Physics.updateParticle wUnit [] 0).velocity.length ≤ 20 :=
  ⟨by norm_num [wUnit],
    (c6_velocity_clamped wUnit [] 0 (by norm_num [wUnit])).1⟩

/-- C2 (amended): Horseshoe is not Bar-equivalent; it gets no shape
multiplier at all.  For any magnet type other than the recognized strings
bar and ring - horseshoe included - calculateMagneticForce returns the
plain clamped inverse-square force, identical across all such types. -/
theorem c2_horseshoe_no_multiplier (s t : Vec3) (strength : ℝ) (ty : String)
    (hb : ty ≠ "bar") (hr : ty ≠ "ring") :
    Physics.calculateMagneticForce s t strength ty =
      Physics.calculateMagneticForce s t strength ("horseshoe") := by
  by_cases hd : Utils.distance s t < 0.1
  · rw [c4_singularity_guard s t strength ty hd,
      c4_singularity_guard s t strength ("horseshoe") hd]
  · rw [Physics.calculateMagneticForce_far s t strength ty hd,
      Physics.calculateMagneticForce_far s t strength ("horseshoe") hd,
      if_neg hb, if_neg hr, if_neg (by simp), if_neg (by simp)]

/-- C2 witness: a concrete unrecognized type string is force-identical to
horseshoe. -/
theorem c2_witness :
    ("wavy" : String) ≠ "bar" ∧
    Physics.calculateMagneticForce ⟨0, 0, 0⟩ ⟨0, 0, 1⟩ 1 ("wavy") =
      Physics.calculateMagneticForce ⟨0, 0, 0⟩ ⟨0, 0, 1⟩ 1 ("horseshoe") :=
  ⟨by simp,
    c2_horseshoe_no_multiplier ⟨0, 0, 0⟩ ⟨0, 0, 1⟩ 1 ("wavy") (by simp) (by simp)⟩

/-- C2 counterexample: with the magnet at the origin and the particle at
(0, 0, 10) with strength 1, the horseshoe force is (0, 0, -0.5) while the
bar force is (0, 0, -0.65) - horseshoe is not treated as Bar-equivalent. -/
theorem c2_counterexample :
    Physics.calculateMagneticForce ⟨0, 0, 0⟩ ⟨0, 0, 10⟩ 1 ("horseshoe") ≠
      Physics.calculateMagneticForce ⟨0, 0, 0⟩ ⟨0, 0, 10⟩ 1 ("bar") := by
  have hd : Utils.distance (⟨0, 0, 0⟩ : Vec3) ⟨0, 0, 10⟩ = 10 := by
    unfold Utils.distance
    exact sqrt_eq_of_sq_eq _ _ (by norm_num) (by norm_num)
  have hfar : ¬ Utils.distance (⟨0, 0, 0⟩ : Vec3) ⟨0, 0, 10⟩ < 0.1 := by
    rw [hd]; norm_num
  have hlen : ((⟨0, 0, 0⟩ : Vec3).sub ⟨0, 0, 10⟩).length = 10 := by
    rw [Vec3.length_sub_eq_distance, hd]
  have hnorm : ((⟨0, 0, 0⟩ : Vec3).sub ⟨0, 0, 10⟩).normalize = ⟨0, 0, -1⟩ := by
    unfold Vec3.normalize
    rw [hlen]
    apply Vec3.ext <;> simp [Vec3.divScalar, Vec3.sub] <;> norm_num
  have hbar : Physics.calculateBarMagnetField ⟨0, 0, 0⟩ ⟨0, 0, 10⟩ = 1.3 := by
    simp only [Physics.calculateBarMagnetField]
    have hlen2 : ((⟨0, 0, 10⟩ : Vec3).sub ⟨0, 0, 0⟩).length = 10 := by
      rw [Vec3.length_sub_eq_distance]
      unfold Utils.distance
      exact sqrt_eq_of_sq_eq _ _ (by norm_num) (by norm_num)
    unfold Vec3.normalize
    rw [hlen2]
    simp [Vec3.divScalar, Vec3.sub, Vec3.dot]
    norm_num [Real.cos_zero]
  have hH : Physics.calculateMagneticForce ⟨0, 0, 0⟩ ⟨0, 0, 10⟩ 1 ("horseshoe") =
      ((⟨0, 0, 0⟩ : Vec3).sub ⟨0, 0, 10⟩).normalize.smul 0.5 := by
    rw [Physics.calculateMagneticForce_far _ _ _ _ hfar, if_neg (by simp),
      if_neg (by simp), hd]
    rw [show (1 : ℝ) * 50 / 10 ^ 2 = 0.5 by norm_num,
      Utils.clamp_eq_self 0.5 0.001 10 (by norm_num) (by norm_num)]
  have hB : Physics.calculateMagneticForce ⟨0, 0, 0⟩ ⟨0, 0, 10⟩ 1 ("bar") =
      ((⟨0, 0, 0⟩ : Vec3).sub ⟨0, 0, 10⟩).normalize.smul 0.65 := by
    rw [Physics.calculateMagneticForce_far _ _ _ _ hfar, if_pos rfl, hd, hbar]
    rw [show (1 : ℝ) * 50 / 10 ^ 2 * 1.3 = 0.65 by norm_num,
      Utils.clamp_eq_self 0.65 0.001 10 (by norm_num) (by norm_num)]
  intro heq
  rw [hH, hB, hnorm] at heq
  have hz := congrArg Vec3.z heq
  simp only [Vec3.smul] at hz
  norm_num at hz

lemma ageAt_append_left (xs ys : List Particle) (j : Nat) (h : j < xs.length) :
    ageAt (xs ++ ys) j = ageAt xs j := by
  unfold ageAt
  rw [List.getElem?_append, if_pos h]

lemma ageAt_append_at (xs : List Particle) (p : Particle) (ys : List Particle) :
    ageAt (xs ++ p :: ys) xs.length = p.age := by
  unfold ageAt
  rw [List.getElem?_append, if_neg (by omega), Nat.sub_self]
  simp

lemma ageAt_cons_zero (p : Particle) (t : List Particle) :
    ageAt (p :: t) 0 = p.age := by
  unfold ageAt
  simp

/-- Invariant of the removeOldestParticle scan: starting from a best index
into the processed prefix whose age dominates the prefix (strictly so for
earlier indices), the scan returns an index whose age dominates the whole
list, strictly so for all earlier indices. -/
lemma oldestAux_spec (rest : List Particle) :
    ∀ (done : List Particle) (best : Nat) (bestAge : ℝ),
      bestAge = ageAt (done ++ rest) best →
      best < done.length →
      (∀ j, j < done.length → ageAt (done ++ rest) j ≤ bestAge) →
      (∀ j, j < best → ageAt (done ++ rest) j < bestAge) →
      MagneticSimulationApp.oldestAux rest done.length best bestAge <
        (done ++ rest).length ∧
      (∀ j, j < (done ++ rest).length →
        ageAt (done ++ rest) j ≤
          ageAt (done ++ rest)
            (MagneticSimulationApp.oldestAux rest done.length best bestAge)) ∧
      (∀ j, j < MagneticSimulationApp.oldestAux rest done.length best bestAge →
        ageAt (done ++ rest) j <
          ageAt (done ++ rest)
            (MagneticSimulationApp.oldestAux rest done.length best bestAge)) := by
  induction rest with
  | nil =>
      intro done best bestAge hbA hlt hmax hfirst
      simp only [MagneticSimulationApp.oldestAux, List.append_nil] at *
      refine ⟨hlt, ?_, ?_⟩
      · intro j hj
        rw [← hbA]
        exact hmax j hj
      · intro j hj
        rw [← hbA]
        exact hfirst j hj
  | cons p t ih =>
      intro done best bestAge hbA hlt hmax hfirst
      have hps : done ++ p :: t = (done ++ [p]) ++ t := by simp
      have hlen1 : (done ++ [p]).length = done.length + 1 := by simp
      have hp : ageAt (done ++ p :: t) done.length = p.age := ageAt_append_at done p t
      by_cases hcase : bestAge < p.age
      · have hstep : MagneticSimulationApp.oldestAux (p :: t) done.length best bestAge
            = MagneticSimulationApp.oldestAux t (done ++ [p]).length done.length p.age := by
          rw [hlen1]
          simp only [MagneticSimulationApp.oldestAux, if_pos hcase]
        rw [hstep, hps]
        apply ih (done ++ [p]) done.length p.age
        · rw [← hps, hp]
        · omega
        · intro j hj
          rw [← hps]
          rw [hlen1] at hj
          rcases Nat.lt_succ_iff_lt_or_eq.mp hj with hj1 | hj2
          · exact le_trans (hmax j hj1) (le_of_lt hcase)
          · rw [hj2, hp]
        · intro j hj
          rw [← hps]
          exact lt_of_le_of_lt (hmax j hj) hcase
      · have hstep : MagneticSimulationApp.oldestAux (p :: t) done.length best bestAge
            = MagneticSimulationApp.oldestAux t (done ++ [p]).length best bestAge := by
          rw [hlen1]
          simp only [MagneticSimulationApp.oldestAux, if_neg hcase]
        rw [hstep, hps]
        apply ih (done ++ [p]) best bestAge
        · rw [← hps]
          exact hbA
        · omega
        · intro j hj
          rw [← hps]
          rw [hlen1] at hj
          rcases Nat.lt_succ_iff_lt_or_eq.mp hj with hj1 | hj2
          · exact hmax j hj1
          · rw [hj2, hp]
            exact not_lt.mp hcase
        · intro j hj
          rw [← hps]
          exact hfirst j hj

/-- The index removeOldestParticle's scan selects is in range, carries the
maximum age, and is the first index attaining that maximum. -/
lemma oldestIndex_spec (ps : List Particle) (h : ps ≠ []) :
    MagneticSimulationApp.oldestIndex ps < ps.length ∧
    (∀ j, j < ps.length →
      ageAt ps j ≤ ageAt ps (MagneticSimulationApp.oldestIndex ps)) ∧
    (∀ j, j < MagneticSimulationApp.oldestIndex ps →
      ageAt ps j < ageAt ps (MagneticSimulationApp.oldestIndex ps)) := by
  match ps, h with
  | p :: t, _ =>
    have hsing : ([p] : List Particle) ++ t = p :: t := by simp
    have hidx : MagneticSimulationApp.oldestIndex (p :: t)
        = MagneticSimulationApp.oldestAux t ([p] : List Particle).length 0 p.age := by
      simp only [MagneticSimulationApp.oldestIndex, List.length_singleton]
    rw [hidx, ← hsing]
    apply oldestAux_spec t [p] 0 p.age
    · rw [hsing, ageAt_cons_zero]
    · simp
    · intro j hj
      have hj0 : j = 0 := by simpa using hj
      rw [hj0, hsing, ageAt_cons_zero]
    · intro j hj
      omega

/-- Shape of addParticle at or above the ceiling: the result is the
original array minus the scanned oldest index, with exactly one new
particle appended. -/
lemma addParticle_shape (st : MagneticSimulationApp.AppState) (pos : Vec3)
    (opts : IronParticle.Options)
    (hge : MagneticSimulationApp.maxParticles ≤ st.particles.length)
    (hne : st.particles ≠ [])
    (hklt : MagneticSimulationApp.oldestIndex st.particles < st.particles.length) :
    ∃ q, (MagneticSimulationApp.addParticle st pos opts).particles =
      st.particles.eraseIdx (MagneticSimulationApp.oldestIndex st.particles) ++ [q] := by
  unfold MagneticSimulationApp.addParticle
  rw [if_pos hge]
  unfold MagneticSimulationApp.removeOldestParticle
  rw [if_neg (by simp [hne])]
  unfold MagneticSimulationApp.removeParticle
  rw [dif_pos hklt]
  rcases hgl :
      (if st.particlePool.length < 50 then
        st.particlePool ++ [st.particles.get ⟨MagneticSimulationApp.oldestIndex st.particles, hklt⟩]
      else st.particlePool).getLast? with _ | q0
  · refine ⟨IronParticle.new pos opts, ?_⟩
    simp only [hgl]
  · refine ⟨{ q0 with position := pos, velocity := Vec3.zero, isDead := false, age := 0 }, ?_⟩
    simp only [hgl]

/-- C5: at the 1000-particle ceiling, addParticle evicts exactly one
particle - the scanned index holds the maximum age and is the first index
attaining it - and after the insert the live count is again 1000 (the
survivors being exactly the original array minus the evicted index). -/
theorem c5_ceiling_eviction (st : MagneticSimulationApp.AppState) (pos : Vec3)
    (opts : IronParticle.Options) (h : st.particles.length = 1000) :
    (MagneticSimulationApp.addParticle st pos opts).particles.length = 1000 ∧
    (MagneticSimulationApp.addParticle st pos opts).particles.dropLast
      = st.particles.eraseIdx (MagneticSimulationApp.oldestIndex st.particles) ∧
    MagneticSimulationApp.oldestIndex st.particles < st.particles.length ∧
    (∀ j, j < st.particles.length →
      ageAt st.particles j ≤
        ageAt st.particles (MagneticSimulationApp.oldestIndex st.particles)) ∧
    (∀ j, j < MagneticSimulationApp.oldestIndex st.particles →
      ageAt st.particles j <
        ageAt st.particles (MagneticSimulationApp.oldestIndex st.particles)) := by
  have hne : st.particles ≠ [] := by
    intro he
    rw [he] at h
    simp at h
  obtain ⟨hklt, hmax, hfirst⟩ := oldestIndex_spec st.particles hne
  have hge : MagneticSimulationApp.maxParticles ≤ st.particles.length := by
    rw [h]
    norm_num [MagneticSimulationApp.maxParticles]
  obtain ⟨q, hq⟩ := addParticle_shape st pos opts hge hne hklt
  refine ⟨?_, ?_, hklt, hmax, hfirst⟩
  · rw [hq, List.length_append, List.length_eraseIdx_of_lt hklt, h]
    simp
  · rw [hq, List.dropLast_concat]

/-- C5 witness: a state holding exactly 1000 live particles. -/
theorem c5_witness :
    ((⟨List.replicate 1000 wUnit, [], []⟩ :
        MagneticSimulationApp.AppState)).particles.length = 1000 ∧
    (MagneticSimulationApp.addParticle
        ⟨List.replicate 1000 wUnit, [], []⟩ ⟨0, 0, 0⟩ {}).particles.length = 1000 := by
  have h : ((⟨List.replicate 1000 wUnit, [], []⟩ :
      MagneticSimulationApp.AppState)).particles.length = 1000 := by
    show (List.replicate 1000 wUnit).length = 1000
    rw [List.length_replicate]
  exact ⟨h, (c5_ceiling_eviction ⟨List.replicate 1000 wUnit, [], []⟩ ⟨0, 0, 0⟩ {} h).1⟩

lemma Vec3.smul_zero_right (a : Vec3) : a.smul 0 = ⟨0, 0, 0⟩ := by
  unfold Vec3.smul
  apply Vec3.ext <;> simp

lemma Vec3.zero_smul_vec (c : ℝ) : (⟨0, 0, 0⟩ : Vec3).smul c = ⟨0, 0, 0⟩ := by
  unfold Vec3.smul
  apply Vec3.ext <;> simp

lemma Vec3.add_zero_vec (a : Vec3) : a.add ⟨0, 0, 0⟩ = a := by
  unfold Vec3.add
  apply Vec3.ext <;> simp

lemma Vec3.length_zero_vec : (⟨0, 0, 0⟩ : Vec3).length = 0 := by
  unfold Vec3.length Vec3.lengthSq
  simp

/-- A resting particle above the ground is a fixed point of the physics
update at dt = 0 with no magnets. -/
lemma updateParticle_static (q : Particle) (hv : q.velocity = ⟨0, 0, 0⟩)
    (hy : 0 < q.position.y) :
    Physics.updateParticle q [] 0 = q := by
  simp only [Physics.updateParticle, List.foldl_nil, hv, Vec3.smul_zero_right,
    Vec3.add_zero_vec, Vec3.length_zero_vec, Vec3.zero_smul_vec]
  rw [if_neg (by norm_num [Physics.maxVelocity])]
  simp only [Vec3.smul_zero_right, Vec3.add_zero_vec, Vec3.zero_smul_vec,
    Physics.handleGroundCollision]
  rw [if_neg (not_le.mpr hy)]
  simp only [Vec3.zero_smul_vec]
  rw [← hv]

lemma checkMagnetInteraction_nil (q : Particle) :
    IronParticle.checkMagnetInteraction q [] = q := rfl

lemma checkGroundStick_zero_vel (q : Particle) (hv : q.velocity = ⟨0, 0, 0⟩) :
    IronParticle.checkGroundStick q = q := by
  unfold IronParticle.checkGroundStick
  split_ifs with h
  · rw [hv, Vec3.zero_smul_vec, ← hv]
  · rfl

/-- A resting particle above the ground with infinite maxAge is a fixed
point of the full per-particle update at dt = 0 with no magnets. -/
lemma ironUpdate_static (p : Particle) (hv : p.velocity = ⟨0, 0, 0⟩)
    (hy : 0 < p.position.y) (hd : p.isDead = false) (hm : p.maxAge = none) :
    IronParticle.update p 0 [] = p := by
  unfold IronParticle.update
  rw [hd]
  simp only [Bool.false_eq_true, if_false, add_zero, hm]
  rw [updateParticle_static
      (⟨p.position, p.velocity, p.mass, p.radius, p.age, none, false⟩ : Particle) hv hy,
    checkMagnetInteraction_nil,
    checkGroundStick_zero_vel
      (⟨p.position, p.velocity, p.mass, p.radius, p.age, none, false⟩ : Particle) hv,
    ← hm, ← hd]

lemma set_get_self {α : Type} :
    ∀ (l : List α) (n : Nat) (h : n < l.length), l.set n (l.get ⟨n, h⟩) = l
  | _ :: _, 0, _ => rfl
  | a :: t, n + 1, h => by
      simp only [List.set, List.get]
      rw [set_get_self t n (by simpa using h)]

/-- The updateParticles loop is the identity when every already-processed
slot holds a fixed point of the per-particle update that stays in bounds. -/
lemma updateParticlesAux_fixed (dt : ℝ) (st : MagneticSimulationApp.AppState) :
    ∀ n, n ≤ st.particles.length →
      (∀ i (h : i < st.particles.length), i < n →
        IronParticle.update (st.particles.get ⟨i, h⟩) dt st.magnets
            = st.particles.get ⟨i, h⟩ ∧
          ¬ IronParticle.isOutOfBounds (st.particles.get ⟨i, h⟩)) →
      MagneticSimulationApp.updateParticlesAux dt st n = st := by
  intro n
  induction n with
  | zero => intro _ _; rfl
  | succ m ih =>
      intro hle hfix
      have hm : m < st.particles.length := by omega
      obtain ⟨hupd, hoob⟩ := hfix m hm (by omega)
      show MagneticSimulationApp.updateParticlesAux dt st (m + 1) = st
      rw [MagneticSimulationApp.updateParticlesAux]
      rw [dif_pos hm]
      dsimp only
      rw [hupd, set_get_self st.particles m hm]
      have hst : ({ st with particles := st.particles } : MagneticSimulationApp.AppState) = st := rfl
      rw [hst, if_neg hoob]
      exact ih (by omega) (fun i h hi => hfix i h (by omega))

/-- The dead-particle cleanup loop is the identity when no particle is
dead. -/
lemma cleanupAux_fixed (st : MagneticSimulationApp.AppState)
    (hlive : ∀ i (h : i < st.particles.length),
      (st.particles.get ⟨i, h⟩).isDead = false) :
    ∀ n, MagneticSimulationApp.cleanupAux st n = st := by
  intro n
  induction n with
  | zero => rfl
  | succ m ih =>
      show MagneticSimulationApp.cleanupAux st (m + 1) = st
      rw [MagneticSimulationApp.cleanupAux]
      by_cases hm : m < st.particles.length
      · rw [dif_pos hm]
        dsimp only
        rw [hlive m hm]
        simp only [Bool.false_eq_true, if_false]
        exact ih
      · rw [dif_neg hm]
        exact ih

/-- The overlapping resting pair is separated along the vertical normal:
the lower particle is pushed to y = -0.005, below the ground plane. -/
lemma handleParticleCollision_cx :
    Physics.handleParticleCollision cxA cxB = (cxA', cxB') := by
  have hd : Utils.distance cxA.position cxB.position = 0.01 := by
    show Utils.distance ⟨0, 0.02, 0⟩ ⟨0, 0.01, 0⟩ = 0.01
    unfold Utils.distance
    exact sqrt_eq_of_sq_eq _ _ (by norm_num) (by norm_num)
  have hlen : (cxB.position.sub cxA.position).length = 0.01 := by
    rw [Vec3.length_sub_eq_distance]
    show Utils.distance ⟨0, 0.01, 0⟩ ⟨0, 0.02, 0⟩ = 0.01
    unfold Utils.distance
    exact sqrt_eq_of_sq_eq _ _ (by norm_num) (by norm_num)
  have hnorm : (cxB.position.sub cxA.position).normalize = ⟨0, -1, 0⟩ := by
    unfold Vec3.normalize
    rw [hlen]
    apply Vec3.ext <;> simp [Vec3.divScalar, Vec3.sub, cxA, cxB] <;> norm_num
  have hdot : (cxA.velocity.sub cxB.velocity).dot ⟨0, -1, 0⟩ = 0 := by
    simp [Vec3.sub, Vec3.dot, cxA, cxB]
  simp only [Physics.handleParticleCollision]
  rw [hd, hnorm, hdot]
  rw [if_pos (by constructor <;> norm_num [cxA, cxB])]
  rw [if_neg (by norm_num)]
  simp only [Prod.mk.injEq]
  constructor
  · apply Particle.ext <;>
      simp [cxA, cxB, cxA', Vec3.sub, Vec3.smul, Vec3.mk.injEq] <;> norm_num
  · apply Particle.ext <;>
      simp [cxA, cxB, cxB', Vec3.add, Vec3.smul, Vec3.mk.injEq] <;> norm_num

lemma applyPair_cx :
    MagneticSimulationApp.applyPair [cxA, cxB] 0 1 = [cxA', cxB'] := by
  simp [MagneticSimulationApp.applyPair, handleParticleCollision_cx]

lemma handleParticleCollisions_cx :
    MagneticSimulationApp.handleParticleCollisions [cxA, cxB] = [cxA', cxB'] := by
  unfold MagneticSimulationApp.handleParticleCollisions
  rw [show List.range ([cxA, cxB] : List Particle).length = [0, 1] from rfl]
  simp [List.foldl_cons, List.foldl_nil, applyPair_cx]

lemma ironUpdate_cxA : IronParticle.update cxA 0 [] = cxA :=
  ironUpdate_static cxA rfl (by norm_num [cxA]) rfl rfl

lemma ironUpdate_cxB : IronParticle.update cxB 0 [] = cxB :=
  ironUpdate_static cxB rfl (by norm_num [cxB]) rfl rfl

lemma oob_cxA : ¬ IronParticle.isOutOfBounds cxA := by
  unfold IronParticle.isOutOfBounds
  norm_num [cxA]

lemma oob_cxB : ¬ IronParticle.isOutOfBounds cxB := by
  unfold IronParticle.isOutOfBounds
  norm_num [cxB]

/-- One full step on the overlapping resting pair: the particle phase is
the identity, the collision pass separates the pair. -/
lemma update_cx :
    (MagneticSimulationApp.update cxState 0).particles = [cxA', cxB'] := by
  unfold MagneticSimulationApp.update
  have h1 : MagneticSimulationApp.updateParticles cxState 0 = cxState := by
    unfold MagneticSimulationApp.updateParticles
    apply updateParticlesAux_fixed 0 cxState cxState.particles.length (le_refl _)
    intro i h hi
    rcases i with _ | _ | n
    · exact ⟨ironUpdate_cxA, oob_cxA⟩
    · exact ⟨ironUpdate_cxB, oob_cxB⟩
    · exact absurd h (by simp [cxState])
  rw [h1]
  dsimp only
  rw [if_pos (show cxState.particles.length < 100 by norm_num [cxState])]
  rw [show cxState.particles = [cxA, cxB] from rfl, handleParticleCollisions_cx]
  rw [cleanupAux_fixed _ ?_ _]
  intro i h
  rcases i with _ | _ | n
  · rfl
  · rfl
  · exact absurd h (by simp)

/-- C1 counterexample: two overlapping particles at rest just above the
ground (y = 0.02 and y = 0.01, radius 0.02 each), no magnets, dt = 0.
After one full step the collision pass has pushed the lower particle to
y = -0.005 < 0, so the ground invariant fails after the step. -/
theorem c1_counterexample :
    ∃ p ∈ (MagneticSimulationApp.update cxState 0).particles,
      p.position.y < 0 := by
  refine ⟨cxB', ?_, ?_⟩
  · rw [update_cx]
    simp
  · norm_num [cxB']
